import Mathlib

/-!
Verification of the talk2docs RAG backend (src/backend) against its
specification.  The Python sources are shallowly embedded: pure string
processing becomes Lean functions on `List Char` / `String`, the external
collaborators (file loaders, vector store, embedding HTTP endpoint, language
model) become explicit parameters, and Python exceptions become `Except`.
Floats never undergo arithmetic in the embedded code, so embedding vectors
are modelled with `Rat` entries.
-/

/- ===== Character classes (store.py clean_text regexes, ASCII fragment) ===== -/

/-- ASCII model of the regex class `\w` (Python defaults to Unicode; every
string in this development is ASCII, where the two coincide). -/
def isWordChar (c : Char) : Bool := c.isAlphanum || c = '_'

/-- ASCII model of the regex class `\s` / Python `str.split()` whitespace. -/
def isSpaceChar (c : Char) : Bool :=
  c = ' ' || c = '\t' || c = '\n' || c = '\r' || c = '\x0b' || c = '\x0c'

/-- The punctuation class `[.,;:!?]` of the two spacing regexes in clean_text
(lines 142-143 of store.py); note it does not include the hyphen. -/
def isPunctChar (c : Char) : Bool :=
  c = '.' || c = ',' || c = ';' || c = ':' || c = '!' || c = '?'

/-- The allow-list of `re.sub(r'[^\w\s.,;:!?\-]', ' ', text)` and of its
variant that preserves technical symbols (store.py lines 134-139). -/
def allowedChar (preserve : Bool) (c : Char) : Bool :=
  isWordChar c || isSpaceChar c || isPunctChar c || c = '-' ||
    (preserve && (c = '$' || c = '%' || c = '@' || c = '#' || c = '&' ||
      c = '+' || c = '*' || c = '=' || c = '<' || c = '>' || c = '/'))

/- ===== Step 1: whitespace collapse via split and join ===== -/

/-- Python `str.split()` on a char list: whitespace-run separated words,
empties discarded.  `acc` holds the current word reversed. -/
def wordsAux : List Char → List Char → List (List Char)
  | [], acc => if acc = [] then [] else [acc.reverse]
  | c :: cs, acc =>
    if isSpaceChar c then
      if acc = [] then wordsAux cs [] else acc.reverse :: wordsAux cs []
    else wordsAux cs (c :: acc)

def words (l : List Char) : List (List Char) := wordsAux l []

/-- Python `' '.join(ws)`. -/
def joinWords : List (List Char) → List Char
  | [] => []
  | [w] => w
  | w :: ws => w ++ ' ' :: joinWords ws

/- ===== Step 2: the regex rule (word+)-(space+)(word+) to concatenation ===== -/

/-- Leftmost, non-overlapping application of the de-hyphenation regex
`(\w+)-\s+(\w+) -> \1\2`: a maximal word run followed by a hyphen, at least
one whitespace character, and a second word run loses the hyphen and the
whitespace; scanning resumes after the second word run, exactly as
`re.sub` resumes after each match.  The `fuel` argument only forces
structural recursion: every recursive call strictly shortens the list, so
with `fuel` at least the list length (as `dehyph` passes) the fuel-exhausted
case is never reached. -/
def dehyphF : Nat → List Char → List Char
  | 0, l => l
  | _, [] => []
  | fuel + 1, c :: cs =>
    if isWordChar c then
      match List.dropWhile isWordChar cs with
      | '-' :: r2 =>
        match List.dropWhile isSpaceChar r2 with
        | d :: r4 =>
          if List.takeWhile isSpaceChar r2 ≠ [] ∧ isWordChar d then
            (c :: List.takeWhile isWordChar cs) ++
              (d :: List.takeWhile isWordChar r4) ++
              dehyphF fuel (List.dropWhile isWordChar r4)
          else (c :: List.takeWhile isWordChar cs) ++ '-' :: dehyphF fuel r2
        | [] => (c :: List.takeWhile isWordChar cs) ++ '-' :: dehyphF fuel r2
      | r1 => (c :: List.takeWhile isWordChar cs) ++ dehyphF fuel r1
    else c :: dehyphF fuel cs

def dehyph (l : List Char) : List Char := dehyphF l.length l

/- ===== Step 3: strip characters outside the allow-list ===== -/

/-- Each character outside the allow-list is replaced by one space. -/
def stripChars (preserve : Bool) (l : List Char) : List Char :=
  l.map (fun c => if allowedChar preserve c then c else ' ')

/- ===== Step 4: the regex rule removing whitespace before punctuation ===== -/

/-- Remove each maximal whitespace run immediately followed by punctuation;
scanning resumes after the punctuation character, as `re.sub` does.  `fuel`
only forces structural recursion, as in `dehyphF`. -/
def delSpacePunctF : Nat → List Char → List Char
  | 0, l => l
  | _, [] => []
  | fuel + 1, c :: cs =>
    if isSpaceChar c then
      match List.dropWhile isSpaceChar cs with
      | p :: rest =>
        if isPunctChar p then p :: delSpacePunctF fuel rest
        else c :: List.takeWhile isSpaceChar cs ++ p :: delSpacePunctF fuel rest
      | [] => c :: cs
    else c :: delSpacePunctF fuel cs

def delSpacePunct (l : List Char) : List Char := delSpacePunctF l.length l

/- ===== Step 5: the regex rule adding a space after punctuation ===== -/

/-- Insert a space after each punctuation character not already followed by
whitespace (the negative lookahead consumes nothing, so the following
character is re-examined; at end of string the lookahead succeeds). -/
def spaceAfterPunct : List Char → List Char
  | [] => []
  | [c] => if isPunctChar c then [c, ' '] else [c]
  | c :: d :: cs =>
    if isPunctChar c && !isSpaceChar d then c :: ' ' :: spaceAfterPunct (d :: cs)
    else c :: spaceAfterPunct (d :: cs)

/- ===== Step 6: final whitespace collapse and strip ===== -/

/-- Collapse each maximal whitespace run to a single space. -/
def collapseWs : List Char → List Char
  | [] => []
  | [c] => if isSpaceChar c then [' '] else [c]
  | c :: d :: cs =>
    if isSpaceChar c && isSpaceChar d then collapseWs (d :: cs)
    else (if isSpaceChar c then ' ' else c) :: collapseWs (d :: cs)

/-- Python `str.strip()`: drop leading and trailing whitespace. -/
def stripList (l : List Char) : List Char :=
  ((l.dropWhile isSpaceChar).reverse.dropWhile isSpaceChar).reverse

def stripStr (s : String) : String := String.mk (stripList s.data)

/-- store.py clean_text: the six normalization rules in source order.
`preserve` is the `preserve_special_chars` flag; Python defaults it to False
and every caller in the repository uses the default, so call sites below
pass `false` explicitly. -/
def clean_text (text : String) (preserve : Bool) : String :=
  if text = "" then ""
  else
    let s1 := joinWords (words text.data)
    let s2 := dehyph s1
    let s3 := stripChars preserve s2
    let s4 := delSpacePunct s3
    let s5 := spaceAfterPunct s4
    let s6 := collapseWs s5
    String.mk (stripList s6)

/- ===== Data model: chunk metadata, document chunks, chat records ===== -/

/-- Metadata attached to an indexed chunk.  Python keeps a dict; the keys the
backend ever reads or writes are modelled as optional fields (`none` =
key absent). -/
structure Metadata where
  title : Option String := none
  source_file : Option String := none
  source : Option String := none
  page : Option Int := none
  error : Option Bool := none
  type : Option String := none
deriving DecidableEq, Repr

/-- A document chunk `{page_content, metadata}` (langchain `Document`). -/
structure DocChunk where
  page_content : String
  metadata : Metadata := {}
deriving DecidableEq, Repr

/- ===== Chunker (langchain RecursiveCharacterTextSplitter) ===== -/

/-- Modelled from the spec: the text splitter is the third-party
`RecursiveCharacterTextSplitter(chunk_size=1200, chunk_overlap=120)` whose
code is not part of this repository.  Spec 4.2 fixes only the policy —
size-bounded overlapping segments, never empty — so splitting is modelled
as consecutive windows of at most 1200 characters advancing by 1080
(1200 - 120 overlap); `fuel` only forces structural recursion and
`splitChunks` passes the list length, which is never exhausted. -/
def splitChunksF : Nat → List Char → List String
  | 0, _ => []
  | fuel + 1, cs =>
    if cs = [] then []
    else if cs.length ≤ 1200 then [String.mk cs]
    else String.mk (cs.take 1200) :: splitChunksF fuel (cs.drop 1080)

def splitChunks (cs : List Char) : List String := splitChunksF cs.length cs

/-- `text_splitter.split_documents`: each document is split and every piece
inherits the metadata of its source document. -/
def splitDocs (ds : List DocChunk) : List DocChunk :=
  (ds.map (fun d =>
    (splitChunks d.page_content.data).map
      (fun t => { page_content := t, metadata := d.metadata }))).flatten

/- ===== ingest_file.py: loader dispatch and load_and_split ===== -/

/-- Modelled from pathlib: `Path(filename).name`, the part after the last
slash (upload filenames; drive letters and trailing slashes do not occur). -/
def baseName (fn : String) : String :=
  String.mk ((fn.data.reverse.takeWhile (fun c => c ≠ '/')).reverse)

/-- Modelled from pathlib: `Path(filename).suffix` — the final extension of
the last path component including its dot; empty when the name has no dot,
starts with its only dot, or ends with its last dot. -/
def pySuffix (fn : String) : String :=
  let cs := (baseName fn).data
  let ext := (cs.reverse.takeWhile (fun c => c ≠ '.')).reverse
  if ext.length < cs.length then
    if 0 < cs.length - 1 - ext.length ∧ 0 < ext.length then
      String.mk ('.' :: ext)
    else ""
  else ""

/-- Python `str.lower()` for the ASCII filenames in play. -/
def lowerStr (s : String) : String := String.mk (s.data.map Char.toLower)

/-- The outcome of each external langchain loader (PyMuPDFLoader,
TextLoader, DedocFileLoader) on the uploaded bytes: the loaders are
out-of-scope collaborators, so the environment carries their results. -/
structure LoaderEnv where
  loadPdf : Except String (List DocChunk)
  loadTxt : Except String (List DocChunk)
  loadDedoc : Except String (List DocChunk)
deriving Repr

/-- The file-extension dispatch of load_and_split (ingest_file.py lines
18-36): suffix `.pdf` / `.txt` / `.docx` / `.doc` pick a loader, anything
anything else raises ValueError with the message "Unsupported file type: " plus the filename. -/
def dispatchLoad (env : LoaderEnv) (filename : String) : Except String (List DocChunk) :=
  let suffix := lowerStr (pySuffix filename)
  if suffix = ".pdf" then env.loadPdf
  else if suffix = ".txt" then env.loadTxt
  else if suffix = ".docx" ∨ suffix = ".doc" then env.loadDedoc
  else Except.error ("Unsupported file type: " ++ filename)

/-- The fallback document text created when loading raises
(ingest_file.py line 42). -/
def errText (filename err : String) : String :=
  "Error loading file: " ++ filename ++ ". Error: " ++ err

/-- The fallback document substituted on load failure (ingest_file.py
lines 41-44): text records filename and error, metadata marks the error. -/
def fallbackDoc (filename err : String) : DocChunk :=
  { page_content := errText filename err,
    metadata := { source := some filename, error := some true } }

/-- The per-document cleaning of load_and_split (ingest_file.py lines
47-53): non-empty text is cleaned and the document survives only when the
cleaned text is non-blank. -/
def processDoc (d : DocChunk) : Option DocChunk :=
  if d.page_content ≠ "" then
    let cleaned := clean_text d.page_content false
    if stripStr cleaned ≠ "" then
      some { page_content := cleaned, metadata := d.metadata }
    else none
  else none

/-- The document list the try/except of load_and_split hands on: the
dispatched loader result, or the single fallback document when loading
raised (ingest_file.py lines 24-44). -/
def loadedDocs (env : LoaderEnv) (filename : String) : List DocChunk :=
  match dispatchLoad env filename with
  | Except.ok ds => ds
  | Except.error e => [fallbackDoc filename e]

/-- ingest_file.py load_and_split: dispatch to a loader (any raise,
including the unsupported-extension one, is replaced by the fallback
document), clean the text of each document, keep only documents whose cleaned
text is non-blank, and split the survivors into chunks. -/
def load_and_split (env : LoaderEnv) (filename : String) : List DocChunk :=
  if (loadedDocs env filename).filterMap processDoc ≠ [] then
    splitDocs ((loadedDocs env filename).filterMap processDoc)
  else []

/- ===== ingest_file.py: metadata cleaning and ingest_file_bytes ===== -/

/-- Drop a string metadata value that is None or blank (ingest_file.py
lines 92-98); non-string values (page, error) are kept as they are. -/
def dropBlank (o : Option String) : Option String :=
  match o with
  | some s => if stripStr s = "" then none else some s
  | none => none

def cleanMeta (m : Metadata) : Metadata :=
  { title := dropBlank m.title, source_file := dropBlank m.source_file,
    source := dropBlank m.source, page := m.page, error := m.error,
    type := dropBlank m.type }

/-- The system-added keys (ingest_file.py lines 101-104). -/
def withIngestMeta (filename : String) (m : Metadata) : Metadata :=
  { m with source_file := some filename, type := some "document" }

/-- Whitespace collapse of chunk text, `' '.join(doc.page_content.split())`
(ingest_file.py line 108). -/
def joinSplitStr (s : String) : String := String.mk (joinWords (words s.data))

/-- The batches of 100 built by `chunks[i:i + BATCH_SIZE]` over
`range(0, total_chunks, 100)` (ingest_file.py lines 111-115); `fuel` only
forces structural recursion and `batchList` passes the list length. -/
def batchListF : Nat → List DocChunk → List (List DocChunk)
  | 0, _ => []
  | fuel + 1, l => if l = [] then [] else l.take 100 :: batchListF fuel (l.drop 100)

def batchList (l : List DocChunk) : List (List DocChunk) := batchListF l.length l

/-- Sequential indexing of the batches; the first failing
`add_documents` call raises and aborts the remainder (ingest_file.py
lines 114-121). -/
def indexBatches (idx : List DocChunk → Except String Unit) :
    List (List DocChunk) → Except String Unit
  | [] => Except.ok ()
  | b :: bs =>
    match idx b with
    | Except.ok _ => indexBatches idx bs
    | Except.error e => Except.error e

/-- The per-chunk metadata cleaning, annotation and whitespace collapse of
ingest_file_bytes (ingest_file.py lines 87-108). -/
def annotateChunk (filename : String) (d : DocChunk) : DocChunk :=
  { page_content := joinSplitStr d.page_content,
    metadata := withIngestMeta filename (cleanMeta d.metadata) }

/-- ingest_file.py ingest_file_bytes: load and split, return 0 on no
content, otherwise clean and annotate the metadata of each chunk, collapse its
whitespace, write the chunks in batches of 100 (a batch failure
propagates), and return the chunk count.  `idx` is the tenant document
vector store method add_documents. -/
def ingest_file_bytes (env : LoaderEnv) (idx : List DocChunk → Except String Unit)
    (filename : String) : Except String Nat :=
  if load_and_split env filename = [] then Except.ok 0
  else
    match indexBatches idx
        (batchList ((load_and_split env filename).map (annotateChunk filename))) with
    | Except.ok _ =>
        Except.ok ((load_and_split env filename).map (annotateChunk filename)).length
    | Except.error e => Except.error e

/- ===== ollama_embeddings.py ===== -/

/-- Outcome of one POST to the Ollama `/api/embeddings` endpoint: an HTTP
response (status plus the parsed `embedding` field — `none` models a
missing or non-list field) or a transport error.  Floats are modelled as
rationals; the backend never computes with the entries. -/
inductive RemoteOutcome where
  | resp (status : Nat) (embedding : Option (List Rat))
  | netError (msg : String)

/-- OllamaEmbeddings._embed (named `embedOne` because Lean identifiers do
not start with an underscore): blank input short-circuits to the zero
vector without any remote call; otherwise the stripped text is posted and
the failures raise `ValueError` (modelled as `Except.error`). -/
def embedOne (remote : String → RemoteOutcome) (text : String) :
    Except String (List Rat) :=
  if stripStr text = "" then Except.ok (List.replicate 384 0)
  else
    match remote (stripStr text) with
    | RemoteOutcome.netError m =>
        Except.error ("Network error while getting embeddings: " ++ m)
    | RemoteOutcome.resp status emb =>
        if status ≠ 200 then
          Except.error ("Ollama embedding request failed with status " ++ toString status)
        else
          match emb with
          | none => Except.error "No embedding found in response"
          | some e =>
              if e = [] then Except.error "Invalid embedding format"
              else Except.ok e

/-- OllamaEmbeddings.embed_documents: one `_embed` per text, substituting
`[0.0] * 384` for any text whose embedding raises. -/
def embed_documents (remote : String → RemoteOutcome) (texts : List String) :
    List (List Rat) :=
  texts.map (fun t =>
    match embedOne remote t with
    | Except.ok e => e
    | Except.error _ => List.replicate 384 0)

/-- OllamaEmbeddings.embed_query: `_embed`, substituting `[0.0] * 384` on
any raise. -/
def embed_query (remote : String → RemoteOutcome) (text : String) : List Rat :=
  match embedOne remote text with
  | Except.ok e => e
  | Except.error _ => List.replicate 384 0

/- ===== store.py: per-tenant index names and the backing store ===== -/

/-- store.py line 86. -/
def docIndexName (tenant_id : String) : String := "doc_" ++ tenant_id

/-- store.py line 103. -/
def chatIndexName (tenant_id : String) : String := "chat_history_" ++ tenant_id

/-- The OpenSearch cluster viewed as a map from index name to stored
chunks. -/
def IndexStore := String → List DocChunk

/-- Ingestion for a tenant appends only to the document index of that tenant
(`get_doc_vector_store(tenant_id).add_documents`). -/
def ingestWrite (st : IndexStore) (tenant_id : String) (cs : List DocChunk) :
    IndexStore :=
  fun n => if n = docIndexName tenant_id then st n ++ cs else st n

/-- Answering for a tenant reads only the document index of that tenant
(`get_relevant_documents`) and chat-history index
(`get_relevant_history`). -/
def answerReads (st : IndexStore) (tenant_id : String) :
    List DocChunk × List DocChunk :=
  (st (docIndexName tenant_id), st (chatIndexName tenant_id))

/- ===== main.py: retrieval, citations, prompt, streaming pipeline ===== -/

/-- The citation descriptor of one retrieved chunk (main.py lines 124-130):
`metadata.get("title") or metadata.get("source_file", "Unknown Source")` —
Python `or` falls through on a missing or empty (falsy) title. -/
def pyTitleOr (m : Metadata) : String :=
  match m.title with
  | some t => if t = "" then m.source_file.getD "Unknown Source" else t
  | none => m.source_file.getD "Unknown Source"

/-- The descriptor with the 1-indexed page display appended when the chunk
carries a page number (main.py lines 125-130). -/
def descriptor (m : Metadata) : String :=
  match m.page with
  | some p => pyTitleOr m ++ " (page " ++ toString (p + 1) ++ ")"
  | none => pyTitleOr m

/-- The numbered context block (main.py line 121): each retrieved chunk
becomes `"[i+1] <text>"` in retrieval order. -/
def mkContext (docs : List DocChunk) : String :=
  String.intercalate "\n"
    (docs.enum.map (fun p => "[" ++ toString (p.1 + 1) ++ "] " ++ p.2.page_content))

/-- The citation mapping (main.py lines 122-130) as the insertion-ordered
association list the Python dict is. -/
def mkSources (docs : List DocChunk) : List (String × String) :=
  docs.enum.map (fun p => ("[" ++ toString (p.1 + 1) ++ "]", descriptor p.2.metadata))

/-- get_relevant_documents on an already-retrieved result list: the empty
result returns the literal nine-character sentinel backslash, open brace,
empty, backslash, close brace — Python keeps the backslashes because
backslash-brace is not an escape — and an empty mapping. -/
def relevantDocuments (docs : List DocChunk) : String × List (String × String) :=
  if docs = [] then ("\\\x7bempty\\\x7d", []) else (mkContext docs, mkSources docs)

/-- The sources block: each label-descriptor pair on its own line, label
and descriptor separated by one space — the same join expression appears
at main.py line 178 (prompt) and line 200 (final response). -/
def renderSourcesBlock (sources : List (String × String)) : String :=
  String.intercalate "\n" (sources.map (fun p => p.1 ++ " " ++ p.2))

/-- get_relevant_history on an already-retrieved result (`Except.error`
models any exception inside the `try`): non-empty results are joined under
the fixed preamble, empty results and failures fall back to the fixed
sentinel. -/
def relevantHistory (res : Except String (List String)) : String :=
  match res with
  | Except.ok docs =>
      if docs ≠ [] then
        "Relevant previous conversations:\n" ++ String.intercalate "\n" docs
      else "No relevant previous conversation history available."
  | Except.error _ => "No relevant previous conversation history available."

/-- RAG_TEMPLATE (main.py lines 54-83) up to `{context}`. -/
def ragTplA : String :=
  "\n<|SYSTEM|>\nYou are a precise RAG assistant. Your sole task is to answer the user\x27s `<QUESTION>` using ONLY the provided `<CONTEXT>`.\n\n## Your Rules:\n1.  **Strictly Grounded:** Base every single statement in your answer on the provided text. NEVER use external knowledge or make assumptions.\n2.  **Cite Everything:** You MUST add a citation `[1]` or `[3][5]` after every piece of information. The citation goes *before* the punctuation.\n3.  **List Your Sources:** After the answer, you MUST provide a `Sources:` list, citing the full title of each source you used.\n4.  **Be Direct:** Do not add any conversational preamble. Start directly with the answer.\n5.  **Handle No Information Politely:** If the context does not contain the answer, you MUST respond with the exact phrase: \"I\x27m sorry, but I couldn\x27t find the information needed to answer your question in the provided documents.\"\n\n<|USER|>\n<CONTEXT>\n"

/-- RAG_TEMPLATE between `{context}` and `{sources_block}`. -/
def ragTplB : String := "\n</CONTEXT>\n\n<SOURCES_BLOCK>\n"

/-- RAG_TEMPLATE between `{sources_block}` and `{chat_history}`. -/
def ragTplC : String := "\n</SOURCES_BLOCK>\n\n<CHAT_HISTORY>\n"

/-- RAG_TEMPLATE between `{chat_history}` and `{question}`. -/
def ragTplD : String := "\n</CHAT_HISTORY>\n\n<QUESTION>\n"

/-- RAG_TEMPLATE after `{question}`. -/
def ragTplE : String := "\n</QUESTION>\n\n<|SYSTEM|>\n"

/-- `prompt.format(...)` — the template with the four values substituted. -/
def formatPrompt (context sources_block chat_history question : String) : String :=
  ragTplA ++ context ++ ragTplB ++ sources_block ++ ragTplC ++ chat_history ++
    ragTplD ++ question ++ ragTplE

/-- The chunks an `llm.astream(prompt)` call yields before terminating,
and `none` if the stream then ended normally / `some msg` if it raised.
The generator in main.py lines 186-194 forwards each yielded chunk and
stops at the first raise, so `chunks` are exactly the chunks the caller
receives either way. -/
structure LLMStream where
  chunks : List String
  err : Option String

/-- The chat record persisted by store_chat_history (main.py lines
140-151). -/
structure ChatRecord where
  page_content : String
  type : String
  tenant_id : String
  query : String
  response : String
deriving DecidableEq, Repr

def mkChatRecord (query response tenant_id : String) : ChatRecord :=
  { page_content := "Q: " ++ query ++ "\nA: " ++ response,
    type := "chat_history", tenant_id := tenant_id, query := query,
    response := response }

/-- store_chat_history: the write is wrapped in `try/except` that only
logs, so a failing `add_documents` (modelled by `storeOk = false`) loses
the record without raising. -/
def store_chat_history (storeOk : Bool) (query response tenant_id : String) :
    Option ChatRecord :=
  if storeOk then some (mkChatRecord query response tenant_id) else none

/-- Everything observable about one run of the answer pipeline: the
rendered prompt, the chunks forwarded to the caller, and the chat record
handed to the history store (`none` when the store write failed). -/
structure StreamOut where
  prompt : String
  emitted : List String
  stored : Option ChatRecord
deriving Repr

/-- main.py stream_rag_response on pre-retrieved inputs: `history` is the
chat-history similarity result, `docs` the document similarity result,
`llm` the streaming model, `storeOk` the chat-store write outcome.  Steps
in source order: history context, document context and citation mapping,
prompt rendering, streaming (chunks before a mid-stream raise are kept —
the `except` only logs), then the response is the concatenated chunks plus
`"\n\nSources:\n"` plus the same sources block, persisted via
store_chat_history. -/
def stream_rag_response (history : Except String (List String))
    (docs : List DocChunk) (llm : String → LLMStream) (storeOk : Bool)
    (query tenant_id : String) : StreamOut :=
  let chat_history := relevantHistory history
  let ctxSources := relevantDocuments docs
  let formatted_prompt :=
    formatPrompt ctxSources.1 (renderSourcesBlock ctxSources.2) chat_history query
  let s := llm formatted_prompt
  let response :=
    String.join s.chunks ++ "\n\nSources:\n" ++ renderSourcesBlock ctxSources.2
  { prompt := formatted_prompt, emitted := s.chunks,
    stored := store_chat_history storeOk query response tenant_id }

/- ===== Helper lemmas ===== -/

/-- A list containing at least one `\w` character. -/
def hasWord (l : List Char) : Prop := ∃ c ∈ l, isWordChar c = true

theorem word_not_space {c : Char} (h : isWordChar c = true) : isSpaceChar c = false := by
  cases hs : isSpaceChar c with
  | false => rfl
  | true =>
    exfalso
    simp only [isSpaceChar, Bool.or_eq_true, decide_eq_true_eq] at hs
    rcases hs with ((((h1 | h1) | h1) | h1) | h1) | h1 <;> subst h1 <;> simp [isWordChar] at h

theorem word_not_punct {c : Char} (h : isWordChar c = true) : isPunctChar c = false := by
  cases hs : isPunctChar c with
  | false => rfl
  | true =>
    exfalso
    simp only [isPunctChar, Bool.or_eq_true, decide_eq_true_eq] at hs
    rcases hs with ((((h1 | h1) | h1) | h1) | h1) | h1 <;> subst h1 <;> simp [isWordChar] at h

theorem mem_dropWhile_of_neg {p : Char → Bool} {c : Char} (hc : p c = false) :
    ∀ {l : List Char}, c ∈ l → c ∈ l.dropWhile p := by
  intro l
  induction l with
  | nil => intro h; simp at h
  | cons a as ih =>
    intro hm
    simp only [List.dropWhile]
    by_cases h : p a
    · simp only [h]
      rcases List.mem_cons.mp hm with rfl | hmem
      · rw [h] at hc; simp at hc
      · exact ih hmem
    · simp only [Bool.not_eq_true] at h
      simp only [h]
      exact hm

theorem hasWord_ne_nil {l : List Char} (h : hasWord l) : l ≠ [] := by
  rcases h with ⟨c, hc, _⟩
  intro hnil
  subst hnil
  simp at hc

theorem hasWord_joinWords_head {w : List Char} (ws : List (List Char))
    (h : hasWord w) : hasWord (joinWords (w :: ws)) := by
  rcases h with ⟨c, hc, hw⟩
  cases ws with
  | nil => exact ⟨c, hc, hw⟩
  | cons x xs =>
    exact ⟨c, by simp only [joinWords]; exact List.mem_append_left _ hc, hw⟩

theorem hasWord_joinWords_tail (w : List Char) {ws : List (List Char)}
    (h : hasWord (joinWords ws)) : hasWord (joinWords (w :: ws)) := by
  rcases h with ⟨c, hc, hw⟩
  cases ws with
  | nil => simp [joinWords] at hc
  | cons x xs =>
    refine ⟨c, ?_, hw⟩
    simp only [joinWords]
    exact List.mem_append_right _ (List.mem_cons_of_mem _ hc)

theorem hasWord_wordsAux : ∀ (l acc : List Char), (hasWord l ∨ hasWord acc) →
    hasWord (joinWords (wordsAux l acc)) := by
  intro l
  induction l with
  | nil =>
    intro acc h
    rcases h with h | h
    · exact absurd rfl (hasWord_ne_nil h)
    · rcases h with ⟨c, hc, hw⟩
      have hacc : acc ≠ [] := by intro he; subst he; simp at hc
      simp only [wordsAux, if_neg hacc]
      exact hasWord_joinWords_head [] ⟨c, List.mem_reverse.mpr hc, hw⟩
  | cons a as ih =>
    intro acc h
    simp only [wordsAux]
    by_cases hsp : isSpaceChar a
    · simp only [hsp, if_true]
      have hrest : hasWord as ∨ hasWord acc := by
        rcases h with ⟨c, hc, hw⟩ | h
        · left
          rcases List.mem_cons.mp hc with rfl | hmem
          · rw [word_not_space hw] at hsp; simp at hsp
          · exact ⟨c, hmem, hw⟩
        · right; exact h
      by_cases hacc : acc = []
      · simp only [hacc, if_true]
        rcases hrest with h1 | h1
        · exact ih [] (Or.inl h1)
        · rcases h1 with ⟨c, hc, _⟩
          subst hacc
          simp at hc
      · simp only [if_neg hacc]
        rcases hrest with h1 | h1
        · exact hasWord_joinWords_tail _ (ih [] (Or.inl h1))
        · rcases h1 with ⟨c, hc, hw⟩
          exact hasWord_joinWords_head _ ⟨c, List.mem_reverse.mpr hc, hw⟩
    · simp only [hsp, if_false]
      rcases h with ⟨c, hc, hw⟩ | h
      · rcases List.mem_cons.mp hc with heq | hmem
        · exact ih (a :: acc) (Or.inr ⟨a, List.mem_cons_self _ _, heq ▸ hw⟩)
        · exact ih (a :: acc) (Or.inl ⟨c, hmem, hw⟩)
      · rcases h with ⟨c, hc, hw⟩
        exact ih (a :: acc) (Or.inr ⟨c, List.mem_cons_of_mem _ hc, hw⟩)

theorem hasWord_words {l : List Char} (h : hasWord l) :
    hasWord (joinWords (words l)) :=
  hasWord_wordsAux l [] (Or.inl h)

theorem hasWord_dehyphF : ∀ (fuel : Nat) (l : List Char), hasWord l →
    hasWord (dehyphF fuel l) := by
  intro fuel
  induction fuel with
  | zero => intro l h; simpa [dehyphF] using h
  | succ n ih =>
    intro l h
    cases l with
    | nil => exact absurd rfl (hasWord_ne_nil h)
    | cons c cs =>
      by_cases hw : isWordChar c
      · have hcw : ∀ (t rest : List Char), hasWord ((c :: t) ++ rest) :=
          fun t rest => ⟨c, List.mem_append_left _ (List.mem_cons_self _ _), hw⟩
        simp only [dehyphF, hw, if_true]
        split
        · split
          · split
            · exact hcw _ _
            · exact hcw _ _
          · exact hcw _ _
        · exact hcw _ _
      · simp only [dehyphF, hw, if_false]
        rcases h with ⟨x, hx, hxw⟩
        rcases List.mem_cons.mp hx with rfl | hmem
        · exact absurd hxw (by simp [hw])
        · rcases ih cs ⟨x, hmem, hxw⟩ with ⟨y, hy, hyw⟩
          exact ⟨y, List.mem_cons_of_mem _ hy, hyw⟩


theorem hasWord_stripChars (preserve : Bool) {l : List Char} (h : hasWord l) :
    hasWord (stripChars preserve l) := by
  rcases h with ⟨c, hc, hw⟩
  refine ⟨c, ?_, hw⟩
  have hall : allowedChar preserve c = true := by
    simp only [allowedChar, Bool.or_eq_true]
    left; left; left; left
    exact hw
  have : (fun x => if allowedChar preserve x then x else ' ') c = c := by
    simp [hall]
  exact this ▸ List.mem_map_of_mem _ hc

theorem hasWord_delSpacePunctF : ∀ (fuel : Nat) (l : List Char), hasWord l →
    hasWord (delSpacePunctF fuel l) := by
  intro fuel
  induction fuel with
  | zero => intro l h; simpa [delSpacePunctF] using h
  | succ n ih =>
    intro l h
    cases l with
    | nil => exact absurd rfl (hasWord_ne_nil h)
    | cons c cs =>
      rcases h with ⟨x, hx, hxw⟩
      by_cases hsp : isSpaceChar c
      · have hxc : x ∈ cs := by
          rcases List.mem_cons.mp hx with heq | hmem
          · exfalso
            rw [heq] at hxw
            rw [word_not_space hxw] at hsp
            simp at hsp
          · exact hmem
        have hsplit : x ∈ List.takeWhile isSpaceChar cs ∨
            x ∈ List.dropWhile isSpaceChar cs := by
          have := List.takeWhile_append_dropWhile isSpaceChar cs
          rw [← this] at hxc
          exact List.mem_append.mp hxc
        have hxtake : x ∉ List.takeWhile isSpaceChar cs := by
          intro hmem
          have := List.mem_takeWhile_imp hmem
          rw [word_not_space hxw] at this
          simp at this
        have hxdrop : x ∈ List.dropWhile isSpaceChar cs := by
          rcases hsplit with h1 | h1
          · exact absurd h1 hxtake
          · exact h1
        simp only [delSpacePunctF, hsp, if_true]
        split
        · rename_i p rest heq
          rw [heq] at hxdrop
          have hxp : x ≠ p ∨ x = p := by tauto
          by_cases hpunct : isPunctChar p
          · simp only [hpunct, if_true]
            have hxrest : x ∈ rest := by
              rcases List.mem_cons.mp hxdrop with heq2 | hmem
              · exfalso
                rw [heq2] at hxw
                rw [word_not_punct hxw] at hpunct
                simp at hpunct
              · exact hmem
            rcases ih rest ⟨x, hxrest, hxw⟩ with ⟨y, hy, hyw⟩
            exact ⟨y, List.mem_cons_of_mem _ hy, hyw⟩
          · simp only [hpunct, if_false]
            rcases List.mem_cons.mp hxdrop with heq2 | hmem
            · refine ⟨x, ?_, hxw⟩
              subst heq2
              exact List.mem_cons_of_mem _
                (List.mem_append_right _ (List.mem_cons_self _ _))
            · rcases ih rest ⟨x, hmem, hxw⟩ with ⟨y, hy, hyw⟩
              refine ⟨y, ?_, hyw⟩
              exact List.mem_cons_of_mem _
                (List.mem_append_right _ (List.mem_cons_of_mem _ hy))
        · rename_i heq
          exact ⟨x, hx, hxw⟩
      · simp only [delSpacePunctF, hsp, if_false]
        rcases List.mem_cons.mp hx with heq | hmem
        · exact ⟨x, heq ▸ List.mem_cons_self _ _, hxw⟩
        · rcases ih cs ⟨x, hmem, hxw⟩ with ⟨y, hy, hyw⟩
          exact ⟨y, List.mem_cons_of_mem _ hy, hyw⟩

theorem hasWord_spaceAfterPunct : ∀ {l : List Char}, hasWord l →
    hasWord (spaceAfterPunct l) := by
  intro l
  induction l with
  | nil => intro h; exact absurd rfl (hasWord_ne_nil h)
  | cons c rest ih =>
    intro h
    rcases h with ⟨x, hx, hxw⟩
    cases rest with
    | nil =>
      have hxc : x = c := by
        rcases List.mem_cons.mp hx with heq | hmem
        · exact heq
        · simp at hmem
      subst hxc
      simp only [spaceAfterPunct]
      split
      · exact ⟨x, List.mem_cons_self _ _, hxw⟩
      · exact ⟨x, List.mem_cons_self _ _, hxw⟩
    | cons d cs =>
      simp only [spaceAfterPunct]
      rcases List.mem_cons.mp hx with heq | hmem
      · subst heq
        split
        · exact ⟨x, List.mem_cons_self _ _, hxw⟩
        · exact ⟨x, List.mem_cons_self _ _, hxw⟩
      · rcases ih ⟨x, hmem, hxw⟩ with ⟨y, hy, hyw⟩
        split
        · exact ⟨y, List.mem_cons_of_mem _ (List.mem_cons_of_mem _ hy), hyw⟩
        · exact ⟨y, List.mem_cons_of_mem _ hy, hyw⟩

theorem hasWord_collapseWs : ∀ {l : List Char}, hasWord l →
    hasWord (collapseWs l) := by
  intro l
  induction l with
  | nil => intro h; exact absurd rfl (hasWord_ne_nil h)
  | cons c rest ih =>
    intro h
    rcases h with ⟨x, hx, hxw⟩
    cases rest with
    | nil =>
      have hxc : x = c := by
        rcases List.mem_cons.mp hx with heq | hmem
        · exact heq
        · simp at hmem
      subst hxc
      simp only [collapseWs]
      have hns : isSpaceChar x = false := word_not_space hxw
      simp only [hns, if_false]
      exact ⟨x, List.mem_cons_self _ _, hxw⟩
    | cons d cs =>
      simp only [collapseWs]
      rcases List.mem_cons.mp hx with heq | hmem
      · subst heq
        have hns : isSpaceChar x = false := word_not_space hxw
        simp only [hns, Bool.false_and, if_false]
        exact ⟨x, List.mem_cons_self _ _, hxw⟩
      · rcases ih ⟨x, hmem, hxw⟩ with ⟨y, hy, hyw⟩
        split
        · exact ⟨y, hy, hyw⟩
        · exact ⟨y, List.mem_cons_of_mem _ hy, hyw⟩

theorem hasWord_stripList {l : List Char} (h : hasWord l) :
    hasWord (stripList l) := by
  rcases h with ⟨c, hc, hw⟩
  have h1 : c ∈ l.dropWhile isSpaceChar :=
    mem_dropWhile_of_neg (word_not_space hw) hc
  have h2 : c ∈ (l.dropWhile isSpaceChar).reverse := List.mem_reverse.mpr h1
  have h3 : c ∈ (l.dropWhile isSpaceChar).reverse.dropWhile isSpaceChar :=
    mem_dropWhile_of_neg (word_not_space hw) h2
  exact ⟨c, List.mem_reverse.mpr h3, hw⟩

theorem hasWord_clean_text {s : String} (h : hasWord s.data) :
    hasWord (clean_text s false).data := by
  have hne : s ≠ "" := by
    intro he
    subst he
    exact absurd rfl (hasWord_ne_nil h)
  simp only [clean_text, hne, if_false]
  exact hasWord_stripList (hasWord_collapseWs (hasWord_spaceAfterPunct
    (hasWord_delSpacePunctF _ _ (hasWord_stripChars false
      (hasWord_dehyphF _ _ (hasWord_words h))))))

theorem hasWord_string_ne_empty {s : String} (h : hasWord s.data) : s ≠ "" := by
  intro he
  subst he
  exact absurd rfl (hasWord_ne_nil h)

theorem hasWord_stripStr_clean_text {s : String} (h : hasWord s.data) :
    stripStr (clean_text s false) ≠ "" := by
  apply hasWord_string_ne_empty
  show hasWord (stripList (clean_text s false).data)
  exact hasWord_stripList (hasWord_clean_text h)

theorem splitChunksF_ne_nil : ∀ (fuel : Nat) (cs : List Char), cs ≠ [] →
    cs.length ≤ fuel → splitChunksF fuel cs ≠ [] := by
  intro fuel
  cases fuel with
  | zero =>
    intro cs hne hle
    interval_cases hcs : cs.length
    · exact absurd (List.length_eq_zero.mp hcs) hne
  | succ n =>
    intro cs hne _
    simp only [splitChunksF, hne, if_false]
    by_cases hlen : cs.length ≤ 1200
    · simp [hlen]
    · simp [hlen]

theorem splitChunks_ne_nil {cs : List Char} (h : cs ≠ []) : splitChunks cs ≠ [] :=
  splitChunksF_ne_nil cs.length cs h (Nat.le_refl _)

theorem indexBatches_all_ok (idx : List DocChunk → Except String Unit)
    (hidx : ∀ b, idx b = Except.ok ()) :
    ∀ bs, indexBatches idx bs = Except.ok () := by
  intro bs
  induction bs with
  | nil => rfl
  | cons b rest ih =>
    simp only [indexBatches, hidx b]
    exact ih

theorem string_append_left_cancel {p a b : String} (h : p ++ a = p ++ b) : a = b := by
  have hd := congrArg String.data h
  simp only [String.data_append] at hd
  exact String.ext (List.append_cancel_left hd)

/- ===== Claim theorems ===== -/

/-- C1: if the model stream raises partway through generation inside
stream_rag_response, the chunks forwarded to the caller are exactly the
chunks produced before the failure, and the pipeline still finalizes:
with a working history store it persists one chat record whose response
text is exactly the concatenation of those chunks, followed by the literal
sources separator and the same sources block that was rendered into the
prompt. -/
theorem claimC1_stream_error_finalization (history : Except String (List String))
    (docs : List DocChunk) (llm : String → LLMStream) (q t e : String)
    (herr : (llm (stream_rag_response history docs llm true q t).prompt).err = some e) :
    (stream_rag_response history docs llm true q t).emitted =
      (llm (stream_rag_response history docs llm true q t).prompt).chunks ∧
    (stream_rag_response history docs llm true q t).stored =
      some (mkChatRecord q
        (String.join (llm (stream_rag_response history docs llm true q t).prompt).chunks
          ++ "\n\nSources:\n" ++ renderSourcesBlock (relevantDocuments docs).2) t) ∧
    (stream_rag_response history docs llm true q t).prompt =
      formatPrompt (relevantDocuments docs).1
        (renderSourcesBlock (relevantDocuments docs).2) (relevantHistory history) q :=
  ⟨rfl, rfl, rfl⟩

theorem claimC1_witness :
    (stream_rag_response (Except.ok []) [] (fun _ => LLMStream.mk ["part"] (some "boom"))
        true "q" "t").emitted =
      ((fun _ => LLMStream.mk ["part"] (some "boom"))
        ((stream_rag_response (Except.ok []) [] (fun _ => LLMStream.mk ["part"] (some "boom"))
          true "q" "t").prompt)).chunks ∧
    (stream_rag_response (Except.ok []) [] (fun _ => LLMStream.mk ["part"] (some "boom"))
        true "q" "t").stored =
      some (mkChatRecord "q"
        (String.join ((fun _ => LLMStream.mk ["part"] (some "boom"))
            ((stream_rag_response (Except.ok []) [] (fun _ => LLMStream.mk ["part"] (some "boom"))
              true "q" "t").prompt)).chunks
          ++ "\n\nSources:\n" ++ renderSourcesBlock (relevantDocuments ([] : List DocChunk)).2) "t") ∧
    (stream_rag_response (Except.ok []) [] (fun _ => LLMStream.mk ["part"] (some "boom"))
        true "q" "t").prompt =
      formatPrompt (relevantDocuments ([] : List DocChunk)).1
        (renderSourcesBlock (relevantDocuments ([] : List DocChunk)).2)
        (relevantHistory (Except.ok [])) "q" :=
  claimC1_stream_error_finalization (Except.ok []) []
    (fun _ => LLMStream.mk ["part"] (some "boom")) "q" "t" "boom" rfl

/-- C2: distinct tenants get distinct backing index names — document index
names are injective in the tenant, chat-history index names are injective
in the tenant, and a document index name never equals a chat-history index
name — so an ingestion write for tenant t1 leaves both indexes read when
answering for tenant t2 unchanged. -/
theorem claimC2_tenant_isolation (t1 t2 : String) (h : t1 ≠ t2)
    (st : IndexStore) (cs : List DocChunk) :
    docIndexName t1 ≠ docIndexName t2 ∧
    chatIndexName t1 ≠ chatIndexName t2 ∧
    docIndexName t1 ≠ chatIndexName t2 ∧
    docIndexName t2 ≠ chatIndexName t1 ∧
    answerReads (ingestWrite st t1 cs) t2 = answerReads st t2 := by
  have hdoc : docIndexName t1 ≠ docIndexName t2 := by
    intro he
    exact h (string_append_left_cancel he)
  have hchat : chatIndexName t1 ≠ chatIndexName t2 := by
    intro he
    exact h (string_append_left_cancel he)
  have hdc : ∀ a b : String, docIndexName a ≠ chatIndexName b := by
    intro a b he
    have hd := congrArg String.data he
    simp only [docIndexName, chatIndexName, String.data_append] at hd
    simp at hd
  refine ⟨hdoc, hchat, hdc t1 t2, hdc t2 t1, ?_⟩
  simp only [answerReads, ingestWrite]
  rw [if_neg (Ne.symm hdoc), if_neg (Ne.symm (hdc t1 t2))]

theorem claimC2_witness :
    docIndexName "a" ≠ docIndexName "b" ∧
    chatIndexName "a" ≠ chatIndexName "b" ∧
    docIndexName "a" ≠ chatIndexName "b" ∧
    docIndexName "b" ≠ chatIndexName "a" ∧
    answerReads (ingestWrite (fun _ => []) "a" [{ page_content := "x" }]) "b" =
      answerReads (fun _ => []) "b" :=
  claimC2_tenant_isolation "a" "b" (by decide) (fun _ => []) [{ page_content := "x" }]

/-- C3: for a non-empty retrieval result of K chunks, the citation labels
of the sources mapping are exactly [1]..[K] in retrieval order (no gaps,
no reordering), the mapping has one entry per retrieved chunk (no
deduplication), and the context block numbers the chunk texts in the same
1-indexed retrieval order. -/
theorem claimC3_citation_labels (docs : List DocChunk) (h : docs ≠ []) :
    (relevantDocuments docs).2.map Prod.fst =
      (List.range docs.length).map (fun i => "[" ++ toString (i + 1) ++ "]") ∧
    (relevantDocuments docs).2.length = docs.length ∧
    (relevantDocuments docs).1 = String.intercalate "\n"
      (docs.enum.map (fun p => "[" ++ toString (p.1 + 1) ++ "] " ++ p.2.page_content)) := by
  simp only [relevantDocuments, if_neg h]
  refine ⟨?_, ?_, rfl⟩
  · simp only [mkSources]
    rw [List.map_map]
    have hcomp : ((fun p : String × String => p.1) ∘ (fun p : Nat × DocChunk =>
        ("[" ++ toString (p.1 + 1) ++ "]", descriptor p.2.metadata))) =
        (fun i : Nat => "[" ++ toString (i + 1) ++ "]") ∘ Prod.fst := rfl
    rw [hcomp, ← List.map_map, List.enum_map_fst]
  · simp [mkSources]

theorem claimC3_witness :
    (relevantDocuments ([{ page_content := "alpha" }, { page_content := "beta" }] : List DocChunk)).2.map Prod.fst =
      (List.range ([{ page_content := "alpha" }, { page_content := "beta" }] : List DocChunk).length).map
        (fun i => "[" ++ toString (i + 1) ++ "]") ∧
    (relevantDocuments ([{ page_content := "alpha" }, { page_content := "beta" }] : List DocChunk)).2.length =
      ([{ page_content := "alpha" }, { page_content := "beta" }] : List DocChunk).length ∧
    (relevantDocuments ([{ page_content := "alpha" }, { page_content := "beta" }] : List DocChunk)).1 =
      String.intercalate "\n"
        (([{ page_content := "alpha" }, { page_content := "beta" }] : List DocChunk).enum.map
          (fun p => "[" ++ toString (p.1 + 1) ++ "] " ++ p.2.page_content)) :=
  claimC3_citation_labels [{ page_content := "alpha" }, { page_content := "beta" }] (by decide)

/-- C4-counterexample: the claim says the descriptor is the title metadata
whenever the title key is present; a chunk whose title is present but the
empty string instead renders its source_file, because Python `or` treats
the empty string as absent. -/
theorem claimC4_counterexample :
    ({ title := some "", source_file := some "report.pdf" } : Metadata).title = some "" ∧
    descriptor { title := some "", source_file := some "report.pdf" } = "report.pdf" ∧
    ("report.pdf" : String) ≠ "" :=
  ⟨rfl, by decide, by decide⟩

/-- C4 (amended): the citation descriptor is the title metadata if present
and non-empty, else the source_file metadata if present, else the literal
"Unknown Source"; when the chunk carries page p the descriptor gets
" (page p+1)" appended, so page 0 renders as "(page 1)". -/
theorem claimC4_descriptor (m : Metadata) :
    (∀ ttl, m.title = some ttl → ttl ≠ "" → pyTitleOr m = ttl) ∧
    ((m.title = none ∨ m.title = some "") →
      pyTitleOr m = m.source_file.getD "Unknown Source") ∧
    (∀ p : Int, m.page = some p →
      descriptor m = pyTitleOr m ++ " (page " ++ toString (p + 1) ++ ")") ∧
    (m.page = none → descriptor m = pyTitleOr m) := by
  refine ⟨?_, ?_, ?_, ?_⟩
  · intro ttl ht hne
    simp [pyTitleOr, ht, hne]
  · intro hcase
    rcases hcase with hc | hc <;> simp [pyTitleOr, hc]
  · intro p hp
    simp [descriptor, hp]
  · intro hp
    simp [descriptor, hp]

theorem claimC4_witness :
    pyTitleOr { title := some "T", source_file := some "doc.pdf", page := some 0 } = "T" ∧
    descriptor { title := some "T", source_file := some "doc.pdf", page := some 0 } =
      "T (page 1)" := by
  constructor
  · exact (claimC4_descriptor
      { title := some "T", source_file := some "doc.pdf", page := some 0 }).1 "T" rfl (by decide)
  · have h1 := (claimC4_descriptor
      { title := some "T", source_file := some "doc.pdf", page := some 0 }).2.2.1 0 rfl
    have h2 := (claimC4_descriptor
      { title := some "T", source_file := some "doc.pdf", page := some 0 }).1 "T" rfl (by decide)
    rw [h1, h2]
    decide

/-- C5: with zero retrieved document chunks, the pipeline renders the
prompt with the literal empty-context sentinel as the context section and
an empty sources block, and the language model is still invoked on that
prompt — its stream output is what the caller receives. -/
theorem claimC5_empty_retrieval (history : Except String (List String))
    (llm : String → LLMStream) (storeOk : Bool) (q t : String) :
    (stream_rag_response history [] llm storeOk q t).prompt =
      formatPrompt "\\\x7bempty\\\x7d" "" (relevantHistory history) q ∧
    (stream_rag_response history [] llm storeOk q t).emitted =
      (llm (formatPrompt "\\\x7bempty\\\x7d" "" (relevantHistory history) q)).chunks :=
  ⟨rfl, rfl⟩

/-- C6: when extraction fails, load_and_split substitutes the single
synthetic fallback document — whose text records the filename and the
error and whose metadata marks the error — so every resulting chunk
carries `error: true` (and the source filename), and ingest_file_bytes,
given a working vector store, returns a chunk count of at least 1 instead
of propagating the extraction failure. -/
theorem claimC6_extraction_failure (env : LoaderEnv)
    (idx : List DocChunk → Except String Unit) (filename err : String)
    (hload : dispatchLoad env filename = Except.error err)
    (hidx : ∀ b, idx b = Except.ok ()) :
    load_and_split env filename =
      splitDocs [{ page_content := clean_text (errText filename err) false,
                   metadata := { source := some filename, error := some true } }] ∧
    (∀ d ∈ load_and_split env filename,
      d.metadata.error = some true ∧ d.metadata.source = some filename) ∧
    (∃ n, ingest_file_bytes env idx filename = Except.ok n ∧ 1 ≤ n) := by
  have hW : hasWord (errText filename err).data := by
    refine ⟨'E', ?_, by decide⟩
    simp only [errText, String.data_append]
    exact List.mem_append_left _ (List.mem_append_left _ (List.mem_append_left _ (by decide)))
  have hne : errText filename err ≠ "" := hasWord_string_ne_empty hW
  have hstrip : stripStr (clean_text (errText filename err) false) ≠ "" :=
    hasWord_stripStr_clean_text hW
  have hproc : processDoc (fallbackDoc filename err) =
      some { page_content := clean_text (errText filename err) false,
             metadata := { source := some filename, error := some true } } := by
    simp only [processDoc, fallbackDoc]
    rw [if_pos hne, if_pos hstrip]
  have hdocs : loadedDocs env filename = [fallbackDoc filename err] := by
    unfold loadedDocs
    rw [hload]
  have hfilter : (loadedDocs env filename).filterMap processDoc =
      [{ page_content := clean_text (errText filename err) false,
         metadata := { source := some filename, error := some true } }] := by
    rw [hdocs]
    simp only [List.filterMap_cons, hproc, List.filterMap_nil]
  have hLS : load_and_split env filename =
      splitDocs [{ page_content := clean_text (errText filename err) false,
                   metadata := { source := some filename, error := some true } }] := by
    unfold load_and_split
    rw [hfilter, if_pos (List.cons_ne_nil _ _)]
  have hdata : (clean_text (errText filename err) false).data ≠ [] :=
    hasWord_ne_nil (hasWord_clean_text hW)
  have hLSne : load_and_split env filename ≠ [] := by
    rw [hLS]
    simp only [splitDocs, List.map_cons, List.map_nil, List.flatten_cons,
      List.flatten_nil, List.append_nil]
    intro hmap
    exact splitChunks_ne_nil hdata (List.map_eq_nil_iff.mp hmap)
  refine ⟨hLS, ?_, ?_⟩
  · intro d hd
    rw [hLS] at hd
    simp only [splitDocs, List.map_cons, List.map_nil, List.flatten_cons,
      List.flatten_nil, List.append_nil] at hd
    rcases List.mem_map.mp hd with ⟨tt, _, heq⟩
    rw [← heq]
    exact ⟨rfl, rfl⟩
  · refine ⟨((load_and_split env filename).map (annotateChunk filename)).length, ?_, ?_⟩
    · unfold ingest_file_bytes
      rw [if_neg hLSne, indexBatches_all_ok idx hidx]
    · rw [List.length_map]
      cases hcase : load_and_split env filename with
      | nil => exact absurd hcase hLSne
      | cons a as => simp

theorem claimC6_witness :
    load_and_split (LoaderEnv.mk (Except.ok []) (Except.ok []) (Except.ok [])) "data.xyz" =
      splitDocs
        [{ page_content :=
            clean_text (errText "data.xyz" ("Unsupported file type: " ++ "data.xyz")) false,
           metadata := { source := some "data.xyz", error := some true } }] ∧
    (∀ d ∈ load_and_split
        (LoaderEnv.mk (Except.ok []) (Except.ok []) (Except.ok [])) "data.xyz",
      d.metadata.error = some true ∧ d.metadata.source = some "data.xyz") ∧
    (∃ n, ingest_file_bytes (LoaderEnv.mk (Except.ok []) (Except.ok []) (Except.ok []))
        (fun _ => Except.ok ()) "data.xyz" = Except.ok n ∧ 1 ≤ n) :=
  claimC6_extraction_failure (LoaderEnv.mk (Except.ok []) (Except.ok []) (Except.ok []))
    (fun _ => Except.ok ()) "data.xyz" ("Unsupported file type: " ++ "data.xyz")
    rfl (fun _ => rfl)

/-- C7: a filename whose (lower-cased pathlib) extension is none of .pdf,
.txt, .docx, .doc makes the loader dispatch raise the unsupported-file-type
error instead of producing documents. -/
theorem claimC7_unsupported_extension (env : LoaderEnv) (fn : String)
    (h : lowerStr (pySuffix fn) ∉ ([".pdf", ".txt", ".docx", ".doc"] : List String)) :
    dispatchLoad env fn = Except.error ("Unsupported file type: " ++ fn) := by
  have h1 : ¬ lowerStr (pySuffix fn) = ".pdf" := fun he => h (by simp [he])
  have h2 : ¬ lowerStr (pySuffix fn) = ".txt" := fun he => h (by simp [he])
  have h3 : ¬ (lowerStr (pySuffix fn) = ".docx" ∨ lowerStr (pySuffix fn) = ".doc") := by
    intro hor
    rcases hor with he | he <;> exact h (by simp [he])
  simp only [dispatchLoad]
  rw [if_neg h1, if_neg h2, if_neg h3]

theorem claimC7_witness :
    dispatchLoad (LoaderEnv.mk (Except.ok []) (Except.ok []) (Except.ok [])) "notes.png" =
      Except.error ("Unsupported file type: " ++ "notes.png") :=
  claimC7_unsupported_extension
    (LoaderEnv.mk (Except.ok []) (Except.ok []) (Except.ok [])) "notes.png" (by decide)

/-- C8: batch embedding returns exactly one vector per input text, the
whole batch never raises, and any text whose underlying `_embed` call
fails contributes the 384-dimension all-zero vector in its position. -/
theorem claimC8_embed_documents_batch (remote : String → RemoteOutcome)
    (texts : List String) (i : Nat) (t : String) (h1 : texts[i]? = some t)
    (h2 : ∀ e, embedOne remote t ≠ Except.ok e) :
    (embed_documents remote texts).length = texts.length ∧
    (embed_documents remote texts)[i]? = some (List.replicate 384 0) := by
  constructor
  · simp only [embed_documents, List.length_map]
  · simp only [embed_documents, List.getElem?_map, h1, Option.map_some']
    cases he : embedOne remote t with
    | ok e => exact absurd he (h2 e)
    | error e => rfl

theorem claimC8_witness :
    (embed_documents (fun _ => RemoteOutcome.netError "down") ["hello"]).length =
      (["hello"] : List String).length ∧
    (embed_documents (fun _ => RemoteOutcome.netError "down") ["hello"])[0]? =
      some (List.replicate 384 0) :=
  claimC8_embed_documents_batch (fun _ => RemoteOutcome.netError "down") ["hello"] 0 "hello"
    rfl
    (fun e he => by
      rw [show embedOne (fun _ => RemoteOutcome.netError "down") "hello" =
        Except.error ("Network error while getting embeddings: " ++ "down") from rfl] at he
      exact Except.noConfusion he)

/-- C9: clean_text joins a hyphen attached to a word and followed by
whitespace and a continuation word, so "co- operative" normalizes to
exactly "cooperative" under the rules applied in source order. -/
theorem claimC9_dehyphenation : clean_text "co- operative" false = "cooperative" := by
  decide

/-- C10: embed_query is total — it returns a vector for every input and
never propagates the underlying `_embed` exception: on any failing remote
embedding call it returns the 384-dimension all-zero vector, and on a
successful call it returns that embedding. -/
theorem claimC10_embed_query_total (remote : String → RemoteOutcome) (text : String) :
    ((∀ e, embedOne remote text ≠ Except.ok e) →
      embed_query remote text = List.replicate 384 0) ∧
    (∀ e, embedOne remote text = Except.ok e → embed_query remote text = e) := by
  constructor
  · intro h
    simp only [embed_query]
    cases he : embedOne remote text with
    | ok e => exact absurd he (h e)
    | error e => rfl
  · intro e he
    simp only [embed_query, he]

theorem claimC10_witness :
    embed_query (fun _ => RemoteOutcome.resp 500 none) "hi" = List.replicate 384 0 :=
  (claimC10_embed_query_total (fun _ => RemoteOutcome.resp 500 none) "hi").1
    (fun e he => by
      rw [show embedOne (fun _ => RemoteOutcome.resp 500 none) "hi" =
        Except.error ("Ollama embedding request failed with status " ++ toString 500)
        from rfl] at he
      exact Except.noConfusion he)
